import Mathlib

/-!
# Verification of the stringencoders codecs

A shallow embedding of the two codecs of the `stringencoders` repository:

* the URL percent-encoder/decoder of `src/trunk/src/modp_burl.c`
  (`modp_burl_encode`, `modp_burl_min_encode`, `modp_burl_encode_strlen`,
  `modp_burl_min_encode_strlen`, `modp_burl_decode`), and
* the web-safe base64 codec declared in `src/src/modp_b64w.h`
  (`modp_b64w_encode`, `modp_b64w_decode`, and the length macros).

Buffers are embedded as `List Nat` of byte values (each `< 256`); a C function
that writes bytes through a `char*` and returns the written length is embedded
as a Lean function returning the list of written bytes (the trailing `'\0'`
terminator, which the C functions write after the output and exclude from the
returned length, is not part of the list; the returned length is the list's
`length`).

The lookup tables live in `modp_burl_data.h`, which is not part of the source
tree, and the base64 function bodies live in `modp_b64w.c`, likewise absent;
those definitions are modelled from the specification and are marked
`Modelled from the spec:` in their doc comments.  Everything else is
transcribed from the C source.
-/

namespace StringEncoders

/-! ## Lookup tables of the URL codec -/

/-- Modelled from the spec: the table `gsUrlEncodeMap` comes from
`modp_burl_data.h`, which is not under `src/`.  Per the spec's data model, the
table maps a safe byte to its literal character and an unsafe byte to the
sentinel `0`; the full-mode safe set is the minimal alphanumeric-plus-few-symbols
set (ASCII letters, digits, and `-`, `.`, `_`), which in particular escapes
space, `%`, `+` and `~` (the spec requires `~` to be escaped in full mode but
not in minimal mode). -/
def gsUrlEncodeMap (b : Nat) : Nat :=
  if (65 ≤ b ∧ b ≤ 90) ∨ (97 ≤ b ∧ b ≤ 122) ∨ (48 ≤ b ∧ b ≤ 57) ∨
      b = 45 ∨ b = 46 ∨ b = 95 then b else 0

/-- Modelled from the spec: the table `gsUrlEncodeMinMap` comes from
`modp_burl_data.h`, which is not under `src/`.  The minimal mode has a strictly
larger safe set than the full mode (the spec requires minimal mode to escape
fewer bytes, e.g. to leave `~` literal, while round-tripping still holds, so
`%` and `+` must remain escaped): safe bytes are the printable ASCII range
33–126 minus `%` (37) and `+` (43); controls, space and high-bit bytes are
escaped. -/
def gsUrlEncodeMinMap (b : Nat) : Nat :=
  if 33 ≤ b ∧ b ≤ 126 ∧ b ≠ 37 ∧ b ≠ 43 then b else 0

/-- The hex digit characters `"0123456789ABCDEF"` (`sHexChars` in the comment
of `modp_burl.c`). -/
def sHexChars (n : Nat) : Nat :=
  if n < 10 then 48 + n else 55 + n

/-- The table `gsHexEncodeMap1` comes from `modp_burl_data.h` (not under
`src/`), but `modp_burl.c` states its value in a comment:
`gsHexEncodeMap1[x] = sHexChars[x >> 4]`. -/
def gsHexEncodeMap1 (x : Nat) : Nat := sHexChars (x / 16)

/-- The table `gsHexEncodeMap2` comes from `modp_burl_data.h` (not under
`src/`), but `modp_burl.c` states its value in a comment:
`gsHexEncodeMap2[x] = sHexChars[x & 0x0F]`. -/
def gsHexEncodeMap2 (x : Nat) : Nat := sHexChars (x % 16)

/-- Modelled from the spec: the table `gsHexDecodeMap` comes from
`modp_burl_data.h`, which is not under `src/`.  Per the spec, it maps an ASCII
hex character to its value 0–15 and everything else to an out-of-range
sentinel `≥ 256` (the concrete sentinel 256 is used: the decoder only tests
`d < 256`). -/
def gsHexDecodeMap (c : Nat) : Nat :=
  if 48 ≤ c ∧ c ≤ 57 then c - 48
  else if 65 ≤ c ∧ c ≤ 70 then c - 55
  else if 97 ≤ c ∧ c ≤ 102 then c - 87
  else 256

/-! ## URL encoding (`modp_burl.c`) -/

/-- `modp_burl_encode` from `modp_burl.c`: for each input byte `x`, if
`gsUrlEncodeMap[x]` is nonzero the table value is written, else `'%'` (37)
followed by `gsHexEncodeMap1[x]` and `gsHexEncodeMap2[x]`.  The list is the
sequence of bytes written to `dest` (the final `'\0'` excluded); the C return
value is its length. -/
def modp_burl_encode : List Nat → List Nat
  | [] => []
  | x :: rest =>
      if gsUrlEncodeMap x ≠ 0 then
        gsUrlEncodeMap x :: modp_burl_encode rest
      else
        37 :: gsHexEncodeMap1 x :: gsHexEncodeMap2 x :: modp_burl_encode rest

/-- `modp_burl_min_encode` from `modp_burl.c`: identical to `modp_burl_encode`
except that it consults `gsUrlEncodeMinMap`. -/
def modp_burl_min_encode : List Nat → List Nat
  | [] => []
  | x :: rest =>
      if gsUrlEncodeMinMap x ≠ 0 then
        gsUrlEncodeMinMap x :: modp_burl_min_encode rest
      else
        37 :: gsHexEncodeMap1 x :: gsHexEncodeMap2 x :: modp_burl_min_encode rest

/-- `modp_burl_encode_strlen` from `modp_burl.c`: each byte contributes 1 if
`gsUrlEncodeMap` marks it safe (nonzero) and 3 otherwise. -/
def modp_burl_encode_strlen : List Nat → Nat
  | [] => 0
  | x :: rest =>
      (if gsUrlEncodeMap x ≠ 0 then 1 else 3) + modp_burl_encode_strlen rest

/-- `modp_burl_min_encode_strlen` from `modp_burl.c`: each byte contributes 1
if `gsUrlEncodeMinMap` marks it safe (nonzero) and 3 otherwise. -/
def modp_burl_min_encode_strlen : List Nat → Nat
  | [] => 0
  | x :: rest =>
      (if gsUrlEncodeMinMap x ≠ 0 then 1 else 3) + modp_burl_min_encode_strlen rest

/-! ## URL decoding (`modp_burl.c`) -/

/-- The second loop of `modp_burl_decode` ("handle last two chars"): only
`'+'` (43) → space (32) translation and literal copy, no `%XX`
interpretation. -/
def burlDecodeTail : List Nat → List Nat
  | [] => []
  | a :: rest => (if a = 43 then 32 else a) :: burlDecodeTail rest

/-- `modp_burl_decode` from `modp_burl.c`.  The first loop runs while
`src < srcend - 2`, i.e. while at least three input bytes remain: `'+'` (43)
becomes space (32); on `'%'` (37) the next two bytes are looked up in
`gsHexDecodeMap` and combined as `(hi << 4) | lo`; if the result is `< 256`
it is emitted and three bytes are consumed, otherwise the literal `'%'` is
emitted and one byte is consumed; any other byte is copied.  When fewer than
three bytes remain, the second loop (`burlDecodeTail`) handles them.  The C
code indexes `gsHexDecodeMap` with `(uint32_t)(*(src + 1))`, a plain-`char`
read; this embedding uses the byte value as the index (the unsigned-`char`
reading); the signed-`char` reading of that cast is modelled separately by
`hexDecodeIndexSignedChar` below. -/
def modp_burl_decode : List Nat → List Nat
  | a :: b :: c :: rest =>
      if a = 43 then 32 :: modp_burl_decode (b :: c :: rest)
      else if a = 37 then
        if gsHexDecodeMap b <<< 4 ||| gsHexDecodeMap c < 256 then
          (gsHexDecodeMap b <<< 4 ||| gsHexDecodeMap c) :: modp_burl_decode rest
        else
          37 :: modp_burl_decode (b :: c :: rest)
      else a :: modp_burl_decode (b :: c :: rest)
  | other => burlDecodeTail other

/-! ## Web-safe base64 (`modp_b64w.h` / `modp_b64w.c`) -/

/-- `modp_b64w_encode_strlen` — the macro `((A + 2)/ 3 * 4)` from
`modp_b64w.h`: the exact length of the encoded output, terminator excluded. -/
def modp_b64w_encode_strlen (n : Nat) : Nat := (n + 2) / 3 * 4

/-- `modp_b64w_encode_len` — the macro `((A+2)/3 * 4 + 1)` from
`modp_b64w.h`: the destination capacity for encoding, `+1` for the
terminator. -/
def modp_b64w_encode_len (n : Nat) : Nat := (n + 2) / 3 * 4 + 1

/-- `modp_b64w_decode_len` — the macro `(A / 4 * 3 + 2)` from `modp_b64w.h`:
a conservative destination capacity for decoding. -/
def modp_b64w_decode_len (n : Nat) : Nat := n / 4 * 3 + 2

/-- Modelled from the spec: the web-safe base64 alphabet (the table
`byteToBase64Char` of `modp_b64w.c`, which is not under `src/`).  Per
`modp_b64w.h`, it is the standard base64 alphabet
`A–Z a–z 0–9` with `'+'` replaced by `'-'` (45) and `'/'` by `'_'` (95);
the padding character `'='` is replaced by `'.'` (46). -/
def b64wChar (v : Nat) : Nat :=
  if v < 26 then 65 + v
  else if v < 52 then 97 + (v - 26)
  else if v < 62 then 48 + (v - 52)
  else if v = 62 then 45
  else 95

/-- The web-safe padding character `'.'`. -/
def b64wPad : Nat := 46

/-- Modelled from the spec: the inverse table `base64CharToByte` of
`modp_b64w.c` (not under `src/`), with invalid entries marked by a sentinel —
embedded as `Option`: a data character of the web-safe alphabet maps to its
6-bit value, everything else (including the padding character `'.'`) to
`none`. -/
def b64wCharToByte (c : Nat) : Option Nat :=
  if 65 ≤ c ∧ c ≤ 90 then some (c - 65)
  else if 97 ≤ c ∧ c ≤ 122 then some (c - 97 + 26)
  else if 48 ≤ c ∧ c ≤ 57 then some (c - 48 + 52)
  else if c = 45 then some 62
  else if c = 95 then some 63
  else none

/-- Modelled from the spec: `modp_b64w_encode` (its body is in `modp_b64w.c`,
not under `src/`; only its declaration is in `modp_b64w.h`).  Per the spec,
groups of 3 input bytes become 4 output characters via 6-bit slices of the
24-bit group mapped through the alphabet; a 1-byte tail emits 2 data
characters and 2 padding characters, a 2-byte tail 3 data characters and 1
padding character.  The list is the sequence of characters written
(terminator excluded); the C return value is its length. -/
def modp_b64w_encode : List Nat → List Nat
  | x :: y :: z :: rest =>
      b64wChar (x / 4) :: b64wChar (x % 4 * 16 + y / 16) ::
        b64wChar (y % 16 * 4 + z / 64) :: b64wChar (z % 64) ::
        modp_b64w_encode rest
  | [x, y] =>
      [b64wChar (x / 4), b64wChar (x % 4 * 16 + y / 16), b64wChar (y % 16 * 4),
        b64wPad]
  | [x] => [b64wChar (x / 4), b64wChar (x % 4 * 16), b64wPad, b64wPad]
  | [] => []

/-- Modelled from the spec: the final 4-character block of
`modp_b64w_decode` (body in `modp_b64w.c`, not under `src/`).  Two trailing
padding characters yield 1 output byte, one trailing padding character yields
2, none yields 3; any character that the alphabet table rejects (sentinel)
fails the whole operation. -/
def b64wDecodeFinal (a b c d : Nat) : Option (List Nat) :=
  if d = b64wPad then
    if c = b64wPad then do
      let va ← b64wCharToByte a
      let vb ← b64wCharToByte b
      some [va * 4 + vb / 16]
    else do
      let va ← b64wCharToByte a
      let vb ← b64wCharToByte b
      let vc ← b64wCharToByte c
      some [va * 4 + vb / 16, vb % 16 * 16 + vc / 4]
  else do
    let va ← b64wCharToByte a
    let vb ← b64wCharToByte b
    let vc ← b64wCharToByte c
    let vd ← b64wCharToByte d
    some [va * 4 + vb / 16, vb % 16 * 16 + vc / 4, vc % 4 * 64 + vd]

/-- Modelled from the spec: `modp_b64w_decode` (body in `modp_b64w.c`, not
under `src/`; only its declaration is in `modp_b64w.h`).  Input is consumed
strictly in 4-character blocks (a length that is not a multiple of 4 fails);
every character is looked up in the inverse table and any character outside
the alphabet fails the whole call (`none`, the C return `-1`); padding is
honoured only at the end of the final block.  On success the list of decoded
bytes is returned; the C return value is its length. -/
def modp_b64w_decode : List Nat → Option (List Nat)
  | [] => some []
  | a :: b :: c :: d :: rest =>
      match rest with
      | [] => b64wDecodeFinal a b c d
      | _ => do
          let va ← b64wCharToByte a
          let vb ← b64wCharToByte b
          let vc ← b64wCharToByte c
          let vd ← b64wCharToByte d
          let tail ← modp_b64w_decode rest
          some ((va * 4 + vb / 16) :: (vb % 16 * 16 + vc / 4) ::
            (vc % 4 * 64 + vd) :: tail)
  | _ => none

/-- A character is part of the web-safe base64 alphabet: either a data
character (the inverse table accepts it) or the padding character `'.'`. -/
def b64wValid (c : Nat) : Bool :=
  (b64wCharToByte c).isSome || c = b64wPad

/-- The `gsHexDecodeMap` subscript that `modp_burl_decode` actually computes
for the byte after `'%'`, on an ABI where plain `char` is signed (e.g. x86):
the byte is read through `const char*` and cast directly to `uint32_t`
(`(uint32_t)(*(src + 1))`), so a byte value `b ≥ 128` is first the negative
`char` value `b - 256` and then sign-extends to `2^32 - 256 + b`. -/
def hexDecodeIndexSignedChar (b : Nat) : Nat :=
  if b < 128 then b else 2 ^ 32 - 256 + b

/-! ## Helper lemmas: URL decoding -/

theorem burlDecodeTail_eq_map (l : List Nat) :
    burlDecodeTail l = l.map (fun b => if b = 43 then 32 else b) := by
  induction l with
  | nil => rfl
  | cons a rest ih => simp [burlDecodeTail, ih]

theorem burl_decode_short (l : List Nat) (h : l.length ≤ 2) :
    modp_burl_decode l = burlDecodeTail l := by
  match l with
  | [] => rfl
  | [a] => rfl
  | [a, b] => rfl

theorem burl_decode_cons_plus (l : List Nat) :
    modp_burl_decode (43 :: l) = 32 :: modp_burl_decode l := by
  match l with
  | [] => rfl
  | [b] => rfl
  | b :: c :: rest => simp [modp_burl_decode]

theorem burl_decode_cons_other (a : Nat) (l : List Nat)
    (h43 : a ≠ 43) (h37 : a ≠ 37) :
    modp_burl_decode (a :: l) = a :: modp_burl_decode l := by
  match l with
  | [] => simp [modp_burl_decode, burlDecodeTail, h43]
  | [b] => simp [modp_burl_decode, burlDecodeTail, h43]
  | b :: c :: rest => simp [modp_burl_decode, h43, h37]

theorem burl_decode_percent_good (b c : Nat) (l : List Nat)
    (h : gsHexDecodeMap b <<< 4 ||| gsHexDecodeMap c < 256) :
    modp_burl_decode (37 :: b :: c :: l) =
      (gsHexDecodeMap b <<< 4 ||| gsHexDecodeMap c) :: modp_burl_decode l := by
  simp [modp_burl_decode, h]

theorem burl_decode_percent_bad (b c : Nat) (l : List Nat)
    (h : ¬ gsHexDecodeMap b <<< 4 ||| gsHexDecodeMap c < 256) :
    modp_burl_decode (37 :: b :: c :: l) =
      37 :: modp_burl_decode (b :: c :: l) := by
  simp [modp_burl_decode, h]

theorem gsUrlEncodeMap_safe (b : Nat) (h : gsUrlEncodeMap b ≠ 0) :
    gsUrlEncodeMap b = b ∧ b ≠ 43 ∧ b ≠ 37 := by
  by_cases hc : (65 ≤ b ∧ b ≤ 90) ∨ (97 ≤ b ∧ b ≤ 122) ∨ (48 ≤ b ∧ b ≤ 57) ∨
      b = 45 ∨ b = 46 ∨ b = 95
  · exact ⟨by simp [gsUrlEncodeMap, hc], by omega, by omega⟩
  · simp [gsUrlEncodeMap, hc] at h

theorem gsUrlEncodeMinMap_safe (b : Nat) (h : gsUrlEncodeMinMap b ≠ 0) :
    gsUrlEncodeMinMap b = b ∧ b ≠ 43 ∧ b ≠ 37 := by
  by_cases hc : 33 ≤ b ∧ b ≤ 126 ∧ b ≠ 37 ∧ b ≠ 43
  · exact ⟨by simp [gsUrlEncodeMinMap, hc], by omega, by omega⟩
  · simp [gsUrlEncodeMinMap, hc] at h

set_option maxRecDepth 8192 in
theorem hexDecodeMap_sHexChars (n : Nat) (h : n < 16) :
    gsHexDecodeMap (sHexChars n) = n := by
  revert n h
  decide

set_option maxRecDepth 8192 in
theorem lor_shift_eq_add : ∀ a, a < 16 → ∀ b, b < 16 →
    a <<< 4 ||| b = a * 16 + b := by
  decide

theorem hex_encode_decode (x : Nat) (h : x < 256) :
    gsHexDecodeMap (gsHexEncodeMap1 x) <<< 4 ||| gsHexDecodeMap (gsHexEncodeMap2 x)
      = x := by
  have h1 : x / 16 < 16 := by omega
  have h2 : x % 16 < 16 := by omega
  rw [gsHexEncodeMap1, gsHexEncodeMap2, hexDecodeMap_sHexChars _ h1,
    hexDecodeMap_sHexChars _ h2, lor_shift_eq_add _ h1 _ h2]
  omega

/-! ## Theorems: URL codec claims -/

/-- C5.  For every input and both modes, the number of bytes written by the
encoder equals the value of the corresponding exact-length function: each
input byte contributes 1 if the mode's table marks it safe and 3 otherwise. -/
theorem burl_encode_length_eq_strlen (l : List Nat) :
    (modp_burl_encode l).length = modp_burl_encode_strlen l ∧
      (modp_burl_min_encode l).length = modp_burl_min_encode_strlen l := by
  induction l with
  | nil => exact ⟨rfl, rfl⟩
  | cons x rest ih =>
      refine ⟨?_, ?_⟩
      · by_cases h : gsUrlEncodeMap x ≠ 0 <;>
          simp [modp_burl_encode, modp_burl_encode_strlen, h, ih.1] <;> omega
      · by_cases h : gsUrlEncodeMinMap x ≠ 0 <;>
          simp [modp_burl_min_encode, modp_burl_min_encode_strlen, h, ih.2] <;>
          omega

theorem burlDecodeTail_length (l : List Nat) :
    (burlDecodeTail l).length = l.length := by
  induction l with
  | nil => rfl
  | cons a rest ih => simp [burlDecodeTail, ih]

theorem burl_decode_encode (l : List Nat) (hb : ∀ b ∈ l, b < 256) :
    modp_burl_decode (modp_burl_encode l) = l := by
  induction l with
  | nil => rfl
  | cons x rest ih =>
      have hx : x < 256 := hb x (List.mem_cons_self x rest)
      have hrest : ∀ b ∈ rest, b < 256 := fun b hm => hb b (List.mem_cons_of_mem _ hm)
      by_cases h : gsUrlEncodeMap x ≠ 0
      · obtain ⟨hval, h43, h37⟩ := gsUrlEncodeMap_safe x h
        have henc : modp_burl_encode (x :: rest) = x :: modp_burl_encode rest := by
          simp only [modp_burl_encode]
          rw [if_pos h, hval]
        rw [henc, burl_decode_cons_other x _ h43 h37, ih hrest]
      · have hcomb := hex_encode_decode x hx
        have henc : modp_burl_encode (x :: rest) =
            37 :: gsHexEncodeMap1 x :: gsHexEncodeMap2 x :: modp_burl_encode rest := by
          simp only [modp_burl_encode]
          rw [if_neg h]
        rw [henc, burl_decode_percent_good _ _ _ (by rw [hcomb]; exact hx), hcomb,
          ih hrest]

theorem burl_decode_min_encode (l : List Nat) (hb : ∀ b ∈ l, b < 256) :
    modp_burl_decode (modp_burl_min_encode l) = l := by
  induction l with
  | nil => rfl
  | cons x rest ih =>
      have hx : x < 256 := hb x (List.mem_cons_self x rest)
      have hrest : ∀ b ∈ rest, b < 256 := fun b hm => hb b (List.mem_cons_of_mem _ hm)
      by_cases h : gsUrlEncodeMinMap x ≠ 0
      · obtain ⟨hval, h43, h37⟩ := gsUrlEncodeMinMap_safe x h
        have henc : modp_burl_min_encode (x :: rest) = x :: modp_burl_min_encode rest := by
          simp only [modp_burl_min_encode]
          rw [if_pos h, hval]
        rw [henc, burl_decode_cons_other x _ h43 h37, ih hrest]
      · have hcomb := hex_encode_decode x hx
        have henc : modp_burl_min_encode (x :: rest) =
            37 :: gsHexEncodeMap1 x :: gsHexEncodeMap2 x :: modp_burl_min_encode rest := by
          simp only [modp_burl_min_encode]
          rw [if_neg h]
        rw [henc, burl_decode_percent_good _ _ _ (by rw [hcomb]; exact hx), hcomb,
          ih hrest]

/-- C2.  For every byte sequence and both encoding modes (full and minimal),
`modp_burl_decode` applied to the encoder's output returns exactly the
input. -/
theorem url_roundtrip (l : List Nat) (hb : ∀ b ∈ l, b < 256) :
    modp_burl_decode (modp_burl_encode l) = l ∧
      modp_burl_decode (modp_burl_min_encode l) = l :=
  ⟨burl_decode_encode l hb, burl_decode_min_encode l hb⟩

/-- Witness for C2 at the spec's example input `"a b"`. -/
theorem url_roundtrip_witness :
    modp_burl_decode (modp_burl_encode [97, 32, 98]) = [97, 32, 98] ∧
      modp_burl_decode (modp_burl_min_encode [97, 32, 98]) = [97, 32, 98] :=
  url_roundtrip [97, 32, 98] (by decide)

/-- C3.  `modp_burl_decode` never fails: when a `'%'` (with at least two
bytes following) is not followed by two valid hex digits, the decoder emits
the literal byte `'%'` and advances exactly one input byte, and decoding the
3-byte input `"%zz"` yields the three literal bytes `'%'`, `'z'`, `'z'`. -/
theorem url_decode_malformed_escape :
    (∀ b c l, ¬ gsHexDecodeMap b <<< 4 ||| gsHexDecodeMap c < 256 →
        modp_burl_decode (37 :: b :: c :: l) = 37 :: modp_burl_decode (b :: c :: l)) ∧
      modp_burl_decode [37, 122, 122] = [37, 122, 122] :=
  ⟨burl_decode_percent_bad, by decide⟩

/-- Witness for C3 at the bad escape `"%zz"`. -/
theorem url_decode_malformed_escape_witness :
    modp_burl_decode [37, 122, 122] = 37 :: modp_burl_decode [122, 122] :=
  url_decode_malformed_escape.1 122 122 [] (by decide)

/-- C6.  `modp_burl_decode` treats a `'%'` as an escape only when at least
two bytes follow it: in the tail zone of the last two input positions only
literal copy and `'+'`-to-space apply, so a 1-byte or 2-byte input ending in
`'%'` keeps the `'%'` literal. -/
theorem url_decode_tail_zone (l : List Nat) (h : l.length ≤ 2) :
    modp_burl_decode l = l.map (fun b => if b = 43 then 32 else b) := by
  rw [burl_decode_short l h, burlDecodeTail_eq_map]

/-- Witness for C6 at the 2-byte input `"x%"`. -/
theorem url_decode_tail_zone_witness :
    modp_burl_decode [120, 37] =
      [120, 37].map (fun b => if b = 43 then 32 else b) :=
  url_decode_tail_zone [120, 37] (by decide)

/-- C7.  At every position of the input (the decoder's state at a position is
decoding of the remaining suffix), an input byte `'+'` produces exactly one
output byte, the space character, and advances exactly one input byte — in
both the main loop and the two-byte tail loop. -/
theorem url_decode_plus_to_space (l : List Nat) :
    modp_burl_decode (43 :: l) = 32 :: modp_burl_decode l :=
  burl_decode_cons_plus l

/-- C10.  The length of the output of `modp_burl_decode` never exceeds the
input length, so a destination of `len + 1` bytes (output plus terminator)
always suffices. -/
theorem url_decode_length_le (l : List Nat) :
    (modp_burl_decode l).length ≤ l.length := by
  induction l using modp_burl_decode.induct with
  | case1 b c rest ih =>
      rw [burl_decode_cons_plus]
      simp only [List.length_cons] at *
      omega
  | case2 b c rest hlt hne ih =>
      rw [burl_decode_percent_good _ _ _ hlt]
      simp only [List.length_cons] at *
      omega
  | case3 b c rest hnlt hne ih =>
      rw [burl_decode_percent_bad _ _ _ hnlt]
      simp only [List.length_cons] at *
      omega
  | case4 a b c rest h43 h37 ih =>
      rw [burl_decode_cons_other a _ h43 h37]
      simp only [List.length_cons] at *
      omega
  | case5 other hshape =>
      have hlen : other.length ≤ 2 := by
        match other with
        | [] => simp
        | [a] => simp
        | [a, b] => simp
        | a :: b :: c :: rest => exact ((hshape a b c rest rfl)).elim
      rw [burl_decode_short other hlen, burlDecodeTail_length]

/-- C9 (code bug).  On an ABI where plain `char` is signed, the
`gsHexDecodeMap` subscript that `modp_burl_decode` computes for a byte
`b ≥ 128` following a `'%'` is `2^32 - 256 + b`, far outside the table's
0–255 domain: at the input byte `0x80` the index is `4294967168`. -/
theorem url_decode_hex_index_out_of_range :
    hexDecodeIndexSignedChar 128 = 4294967168 ∧
      ¬ hexDecodeIndexSignedChar 128 ≤ 255 := by
  constructor <;> decide

/-! ## Helper lemmas: web-safe base64 -/

set_option maxRecDepth 8192 in
theorem b64wCharToByte_b64wChar : ∀ v, v < 64 →
    b64wCharToByte (b64wChar v) = some v := by
  decide

set_option maxRecDepth 8192 in
theorem b64wChar_ne_pad : ∀ v, v < 64 → b64wChar v ≠ b64wPad := by
  decide

theorem b64w_encode_eq_nil_iff (l : List Nat) :
    modp_b64w_encode l = [] ↔ l = [] := by
  match l with
  | [] => simp [modp_b64w_encode]
  | [x] => simp [modp_b64w_encode]
  | [x, y] => simp [modp_b64w_encode]
  | x :: y :: z :: rest => simp [modp_b64w_encode]

theorem b64wValid_eq_false (x : Nat) (h : b64wValid x = false) :
    b64wCharToByte x = none ∧ x ≠ b64wPad := by
  rcases hopt : b64wCharToByte x with _ | v
  · refine ⟨rfl, fun hpad => ?_⟩
    rw [b64wValid, hopt, hpad] at h
    simp at h
  · rw [b64wValid, hopt] at h
    simp at h

theorem b64wDecodeFinal_none (a b c d x : Nat)
    (hmem : x = a ∨ x = b ∨ x = c ∨ x = d)
    (hx : b64wCharToByte x = none) (h46 : x ≠ b64wPad) :
    b64wDecodeFinal a b c d = none := by
  rcases hmem with rfl | rfl | rfl | rfl
  · unfold b64wDecodeFinal
    by_cases hdp : d = b64wPad <;> by_cases hcp : c = b64wPad <;>
      simp [hdp, hcp, hx]
  · unfold b64wDecodeFinal
    by_cases hdp : d = b64wPad <;> by_cases hcp : c = b64wPad <;>
      rcases hA : b64wCharToByte a with _ | va <;> simp [hdp, hcp, hA, hx]
  · unfold b64wDecodeFinal
    rcases hA : b64wCharToByte a with _ | va <;>
      rcases hB : b64wCharToByte b with _ | vb <;>
      by_cases hdp : d = b64wPad <;>
      simp [hdp, hA, hB, hx, h46]
  · unfold b64wDecodeFinal
    rcases hA : b64wCharToByte a with _ | va <;>
      rcases hB : b64wCharToByte b with _ | vb <;>
      rcases hC : b64wCharToByte c with _ | vc <;>
      simp [hA, hB, hC, hx, h46]

/-! ## Theorems: base64 claims -/

/-- C8.  `modp_b64w_encode` cannot fail: it is a total function whose output
length always equals the `modp_b64w_encode_strlen` macro `((len + 2)/3 * 4)`,
and the degenerate case `len = 0` yields the empty output. -/
theorem b64w_encode_exact_length (l : List Nat) :
    (modp_b64w_encode l).length = modp_b64w_encode_strlen l.length ∧
      modp_b64w_encode [] = [] := by
  refine ⟨?_, rfl⟩
  induction l using modp_b64w_encode.induct with
  | case1 x y z rest ih =>
      simp only [modp_b64w_encode, List.length_cons, modp_b64w_encode_strlen] at *
      omega
  | case2 x y => simp [modp_b64w_encode, modp_b64w_encode_strlen]
  | case3 x => simp [modp_b64w_encode, modp_b64w_encode_strlen]
  | case4 => rfl

theorem b64w_decode_encode (l : List Nat) (hb : ∀ b ∈ l, b < 256) :
    modp_b64w_decode (modp_b64w_encode l) = some l := by
  induction l using modp_b64w_encode.induct with
  | case4 => rfl
  | case3 x =>
      have hx : x < 256 := hb x (by simp)
      have h1 := b64wCharToByte_b64wChar (x / 4) (by omega)
      have h2 := b64wCharToByte_b64wChar (x % 4 * 16) (by omega)
      simp [modp_b64w_encode, modp_b64w_decode, b64wDecodeFinal, h1, h2]
      omega
  | case2 x y =>
      have hx : x < 256 := hb x (by simp)
      have hy : y < 256 := hb y (by simp)
      have h1 := b64wCharToByte_b64wChar (x / 4) (by omega)
      have h2 := b64wCharToByte_b64wChar (x % 4 * 16 + y / 16) (by omega)
      have h3 := b64wCharToByte_b64wChar (y % 16 * 4) (by omega)
      have hne : b64wChar (y % 16 * 4) ≠ b64wPad := b64wChar_ne_pad _ (by omega)
      simp [modp_b64w_encode, modp_b64w_decode, b64wDecodeFinal, h1, h2, h3, hne]
      omega
  | case1 x y z rest ih =>
      have hx : x < 256 := hb x (by simp)
      have hy : y < 256 := hb y (by simp)
      have hz : z < 256 := hb z (by simp)
      have hrest : ∀ b ∈ rest, b < 256 := fun b hm => hb b (by simp [hm])
      have h1 := b64wCharToByte_b64wChar (x / 4) (by omega)
      have h2 := b64wCharToByte_b64wChar (x % 4 * 16 + y / 16) (by omega)
      have h3 := b64wCharToByte_b64wChar (y % 16 * 4 + z / 64) (by omega)
      have h4 := b64wCharToByte_b64wChar (z % 64) (by omega)
      have hne : b64wChar (z % 64) ≠ b64wPad := b64wChar_ne_pad _ (by omega)
      rcases herest : modp_b64w_encode rest with _ | ⟨e, es⟩
      · have hrnil : rest = [] := (b64w_encode_eq_nil_iff rest).1 herest
        subst hrnil
        simp [modp_b64w_encode, modp_b64w_decode, b64wDecodeFinal, h1, h2, h3,
          h4, hne]
        omega
      · have htail : modp_b64w_decode (e :: es) = some rest := by
          rw [← herest]; exact ih hrest
        simp only [modp_b64w_encode, herest]
        simp [modp_b64w_decode, h1, h2, h3, h4, htail]
        omega

/-- C1.  For every byte sequence, decoding the web-safe base64 encoding of it
succeeds and returns exactly the input bytes. -/
theorem b64w_roundtrip (l : List Nat) (hb : ∀ b ∈ l, b < 256) :
    modp_b64w_decode (modp_b64w_encode l) = some l :=
  b64w_decode_encode l hb

/-- Witness for C1 at the spec's example input `"foo"`. -/
theorem b64w_roundtrip_witness :
    modp_b64w_decode (modp_b64w_encode [102, 111, 111]) = some [102, 111, 111] :=
  b64w_roundtrip [102, 111, 111] (by decide)

/-- C4.  If the input to `modp_b64w_decode` contains any character outside the
web-safe base64 alphabet (data characters and the padding character), the
whole call fails (`none`, the C return `-1`); no partial output is
produced. -/
theorem b64w_decode_rejects_invalid (s : List Nat) (x : Nat)
    (hx : b64wValid x = false) (hmem : x ∈ s) :
    modp_b64w_decode s = none := by
  obtain ⟨hnone, h46⟩ := b64wValid_eq_false x hx
  induction s using modp_b64w_decode.induct with
  | case1 => exact absurd hmem (List.not_mem_nil x)
  | case2 a b c d =>
      simp only [List.mem_cons, List.not_mem_nil, or_false] at hmem
      simpa only [modp_b64w_decode] using
        b64wDecodeFinal_none a b c d x hmem hnone h46
  | case3 a b c d rest hne ih =>
      rcases rest with _ | ⟨e, es⟩
      · exact (hne rfl).elim
      · simp only [List.mem_cons] at hmem
        rcases hmem with rfl | rfl | rfl | rfl | hm
        · simp [modp_b64w_decode, hnone]
        · cases ha : b64wCharToByte a <;> simp [modp_b64w_decode, ha, hnone]
        · cases ha : b64wCharToByte a <;> cases hb : b64wCharToByte b <;>
            simp [modp_b64w_decode, ha, hb, hnone]
        · cases ha : b64wCharToByte a <;> cases hb : b64wCharToByte b <;>
            cases hc : b64wCharToByte c <;>
            simp [modp_b64w_decode, ha, hb, hc, hnone]
        · have ht := ih (by simp [hm])
          cases ha : b64wCharToByte a <;> cases hb : b64wCharToByte b <;>
            cases hc : b64wCharToByte c <;> cases hd : b64wCharToByte d <;>
            simp [modp_b64w_decode, ha, hb, hc, hd, ht]
  | case4 t h1 h4 =>
      match t, h1, h4 with
      | [], h1, _ => exact (h1 rfl).elim
      | [p], _, _ => rfl
      | [p, q], _, _ => rfl
      | [p, q, r], _, _ => rfl
      | p :: q :: r :: s :: ts, _, h4 => exact ((h4 p q r s ts rfl)).elim

/-- Witness for C4: a string containing `'+'` (43), which is outside the
web-safe alphabet, fails to decode. -/
theorem b64w_decode_rejects_invalid_witness :
    modp_b64w_decode [43, 65, 65, 65] = none :=
  b64w_decode_rejects_invalid [43, 65, 65, 65] 43 (by decide) (by decide)

end StringEncoders
